import Mathlib

/-!
Shallow embedding of the event-based risk aggregation engine
(openquake/calculators/event_based_risk.py), for checking the
natural-language specification against the code.

Numeric values carried by numpy float arrays are modelled as rationals;
loss vectors of I columns (I = 1 or 2 depending on the insured-losses
configuration flag) are lists of rationals. The external numpy random
generator is modelled as an arbitrary deterministic function parameter
`normal` (numpy.random.seed followed by numpy.random.normal is a pure
function of the seed, which is its documented contract).
-/

namespace EBR

/-- One row of the event loss table, dtype elt_dt = [(eid, U32), (loss, (F32, I))]
from build_el_dtypes. -/
structure EltRec where
  eid : Nat
  loss : List ℚ
deriving DecidableEq, Repr

/-- One row of the event loss assets table, dtype ela_dt =
[(eid, U32), (aid, U32), (loss, (F32, I))] from build_el_dtypes. -/
structure ElaRec where
  eid : Nat
  aid : Nat
  loss : List ℚ
deriving DecidableEq, Repr

/-- Collapse of the dense per-event aggregate into a sparse record array,
from event_based_risk lines 181-182:
records = [(eids[i], loss) for i, loss in enumerate(agg[lr]) if loss.sum() > 0]. -/
def aggRecords (eids : List Nat) (agglr : List (List ℚ)) : List EltRec :=
  ((eids.zip agglr).filter (fun p => decide (0 < p.2.sum))).map
    (fun p => ⟨p.1, p.2⟩)

/-- The agglosses entry stored in the task result for one (loss type,
realization) pair, from event_based_risk lines 183-184: the sparse array is
materialized only when the record list is nonempty. -/
def agglossesEntry (eids : List Nat) (agglr : List (List ℚ)) :
    Option (List EltRec) :=
  let records := aggRecords eids agglr
  if records = [] then none else some records

/-- Buffered asset loss rows for one asset, from _aggregate lines 143-145:
data = [(eid, aid, loss) for eid, loss in zip(out.eids, loss_ratios)
        if loss.sum() > 0].
Note that the loss field stored in each row is the raw loss ratio vector,
taken from loss_ratios, not the scaled losses. -/
def assetLossData (eids : List Nat) (aid : Nat)
    (lossRatios : List (List ℚ)) : List ElaRec :=
  ((eids.zip lossRatios).filter (fun p => decide (0 < p.2.sum))).map
    (fun p => ⟨p.1, aid, p.2⟩)

/-- losses = loss_ratios * asset.value(loss_type), from _aggregate line 134;
elementwise scaling of the (E, I) ratio matrix by the scalar asset value. -/
def scaledLosses (lossRatios : List (List ℚ)) (value : ℚ) : List (List ℚ) :=
  lossRatios.map (fun row => row.map (· * value))

/-- Componentwise addition of two I-column rows. -/
def vecAdd (a b : List ℚ) : List ℚ := List.zipWith (· + ·) a b

/-- Column sum of an (E, I) matrix: loss_ratios.sum(axis=0). -/
def colSum (I : Nat) (rows : List (List ℚ)) : List ℚ :=
  rows.foldl vecAdd (List.replicate I 0)

/-- agglr[indices] += losses, from _aggregate line 150: each event row of
the scaled losses is added into the dense aggregate at its index. -/
def aggUpdate (agg : List (List ℚ)) (indices : List Nat)
    (losses : List (List ℚ)) : List (List ℚ) :=
  (indices.zip losses).foldl
    (fun a p => a.set p.1 (vecAdd (a.getD p.1 []) p.2)) agg

/-- The run-wide configuration carried by the Monitor into each task,
from EbriskCalculator.gen_args lines 511-520. -/
structure Monitor where
  avg_losses : Bool
  loss_ratios : Bool
  insured_losses : Bool
  ses_ratio : ℚ

/-- Per-task accumulation state for one (loss type, realization) pair:
the avglosses accumulator (A rows of I columns), the list of buffered
asset loss arrays, and the dense (E, I) aggregate. -/
structure TaskAcc where
  avg : List (List ℚ)
  ass : List (List ElaRec)
  agg : List (List ℚ)

/-- Processing of one asset of one output inside _aggregate (lines 131-150):
average losses are accumulated as loss_ratios.sum(axis=0) * ses_ratio,
asset loss rows are buffered from the raw loss ratios when their sum is
positive, and the dense aggregate receives the value-scaled losses. -/
def processAsset (mon : Monitor) (I : Nat) (idxOf : Nat → Nat)
    (eids : List Nat) (aid : Nat) (value : ℚ)
    (lossRatios : List (List ℚ)) (st : TaskAcc) : TaskAcc :=
  let losses := scaledLosses lossRatios value
  let avgRow :=
    vecAdd (st.avg.getD aid []) ((colSum I lossRatios).map (· * mon.ses_ratio))
  let st1 :=
    if mon.avg_losses then { st with avg := st.avg.set aid avgRow } else st
  let st2 :=
    if mon.loss_ratios then
      let data := assetLossData eids aid lossRatios
      if data = [] then st1 else { st1 with ass := st1.ass ++ [data] }
    else st1
  { st2 with agg := aggUpdate st2.agg (eids.map idxOf) losses }

/-- One task result dictionary as returned by event_based_risk: agglosses
and asslosses keyed by (loss type, realization) in the deterministic sorted
order returned by _aggregate, the optional avglosses dense accumulators
(asset to (ground, insured) components), and the gmfbytes counter. -/
structure TaskRes where
  agglosses : List ((Nat × Nat) × List EltRec)
  asslosses : List ((Nat × Nat) × List ElaRec)
  avglosses : List ((Nat × Nat) × (Nat → ℚ × ℚ))
  gmfbytes : Nat

/-- The slice of the persistent datastore touched by the reducer:
agg_loss_table and ass_loss_ratios keyed by (realization, loss type),
the dense avg_losses-rlzs array indexed by (asset, (realization, loss
column)), and the accumulated gmfbytes. -/
structure Store where
  agg_loss_table : Nat × Nat → List EltRec
  ass_loss_ratios : Nat × Nat → List ElaRec
  avg_losses : Nat × Nat × Nat → ℚ
  gmfbytes : Nat

/-- The datastore at the beginning of save_results: empty loss tables and
the freshly created all-zero avg_losses-rlzs dense dataset. -/
def emptyStore : Store := ⟨fun _ => [], fun _ => [], fun _ => 0, 0⟩

/-- datastore.extend under one key: append-only growth of one dataset. -/
def extendTable {α : Type} (f : Nat × Nat → List α) (k : Nat × Nat)
    (recs : List α) : Nat × Nat → List α :=
  fun q => if q = k then f q ++ recs else f q

/-- EbriskCalculator.save_losses (lines 598-614): each (l, r) entry of a
task result is appended to the store under the key (r + offset, l), where
offset is the realization offset of the source model. -/
def save_losses (st : Store) (aggl : List ((Nat × Nat) × List EltRec))
    (assl : List ((Nat × Nat) × List ElaRec)) (offset : Nat) : Store :=
  let aggT := aggl.foldl
    (fun f e => extendTable f (e.1.2 + offset, e.1.1) e.2) st.agg_loss_table
  let assT := assl.foldl
    (fun f e => extendTable f (e.1.2 + offset, e.1.1) e.2) st.ass_loss_ratios
  { st with agg_loss_table := aggT, ass_loss_ratios := assT }

/-- The avg_losses contribution of one task at one cell of the dense
array, from save_results lines 581-585: the accumulator of pair (l, r)
adds losses[:, 0] * vals into column (r + offset, l) and, when insured
losses are enabled, losses[:, 1] * vals into column (r + offset, l + L);
vals l a is the value of asset a for loss type l. -/
def avgDelta (L : Nat) (ins : Bool) (vals : Nat → Nat → ℚ) (offset : Nat)
    (avgl : List ((Nat × Nat) × (Nat → ℚ × ℚ))) (p : Nat × Nat × Nat) : ℚ :=
  (avgl.map (fun e =>
    (if p.2.1 = e.1.2 + offset ∧ p.2.2 = e.1.1 then
      (e.2 p.1).1 * vals e.1.1 p.1 else 0) +
    (if ins ∧ p.2.1 = e.1.2 + offset ∧ p.2.2 = e.1.1 + L then
      (e.2 p.1).2 * vals e.1.1 p.1 else 0))).sum

/-- Folding one task result into the store, as in the inner loop of
EbriskCalculator.save_results (lines 577-588): the avglosses accumulators
are added into the dense array, gmfbytes is accumulated, and the loss
tables are extended by save_losses with the realization offset of the
source model (res.rlz_slice.start, fixed before dispatch). -/
def saveOne (L : Nat) (ins avgFlag : Bool) (vals : Nat → Nat → ℚ)
    (st : Store) (t : Nat × TaskRes) : Store :=
  let st1 :=
    if avgFlag then
      let f := fun p => st.avg_losses p + avgDelta L ins vals t.1 t.2.avglosses p
      { st with avg_losses := f }
    else st
  let st2 := { st1 with gmfbytes := st1.gmfbytes + t.2.gmfbytes }
  save_losses st2 t.2.agglosses t.2.asslosses t.1

/-- EbriskCalculator.save_results (lines 560-596) as a fold over the
stream of task results in their completion order; each list element
carries the realization offset of its source model. -/
def save_results (L : Nat) (ins avgFlag : Bool) (vals : Nat → Nat → ℚ)
    (st : Store) (tasks : List (Nat × TaskRes)) : Store :=
  tasks.foldl (saveOne L ins avgFlag vals) st

/-- The records one task contributes to key k of an append-only table. -/
def tableContrib {α : Type} (off : Nat)
    (entries : List ((Nat × Nat) × List α)) (k : Nat × Nat) : List α :=
  entries.flatMap (fun e => if k = (e.1.2 + off, e.1.1) then e.2 else [])

/-- EbriskCalculator.post_execute (lines 616-649) reduced to its control
flow: a RuntimeError is raised exactly when gmfbytes is 0; otherwise, when
the agg_loss_table key is absent from the datastore (no losses were
generated by any task), only a warning is logged and the run completes. -/
def post_execute (gmfbytes : Nat) (hasAggLossTable : Bool) :
    Except String (List String) :=
  if gmfbytes = 0 then
    Except.error "No GMFs were generated"
  else if hasAggLossTable then Except.ok []
  else Except.ok ["No losses were generated"]

/-- EpsilonMatrix0 (lines 382-408): lazily materialized N x E matrix of
epsilons for asset_correlation = 0; eps is the mutable cache, None until
the first access. The numpy generator is the parameter normal: normal s a
is draw a of numpy.random.normal after numpy.random.seed(s). -/
structure EpsilonMatrix0 where
  num_assets : Nat
  seeds : List Nat
  eps : Option (List (List ℚ))

/-- Reading cell (a, e) of a materialized N x E epsilon matrix. -/
def epsGet (e : List (List ℚ)) (item : Nat × Nat) : ℚ :=
  (e.getD item.1 []).getD item.2 0

/-- EpsilonMatrix0.make_eps (lines 395-403): column i of the N x E matrix
holds the N normal draws obtained from seeds[i]. -/
def make_eps (normal : Nat → Nat → ℚ) (m : EpsilonMatrix0) :
    List (List ℚ) :=
  (List.range m.num_assets).map (fun a => m.seeds.map (fun s => normal s a))

/-- EpsilonMatrix0.__init__ (lines 390-393): the cache starts empty. -/
def EpsilonMatrix0.init (n : Nat) (seeds : List Nat) : EpsilonMatrix0 :=
  ⟨n, seeds, none⟩

/-- EpsilonMatrix0.__getitem__ (lines 405-408): materialize the matrix on
first access, cache it, and read the requested cell; returns the value
and the possibly updated object state. -/
def EpsilonMatrix0.getitem (normal : Nat → Nat → ℚ) (m : EpsilonMatrix0)
    (item : Nat × Nat) : ℚ × EpsilonMatrix0 :=
  match m.eps with
  | none =>
    let e := make_eps normal m
    (epsGet e item, { m with eps := some e })
  | some e => (epsGet e item, m)

/-- EpsilonMatrix1 (lines 411-428): fully correlated epsilons for
asset_correlation = 1; a single per-event vector drawn eagerly at
construction from the master seed. -/
structure EpsilonMatrix1 where
  num_events : Nat
  seed : Nat
  eps : List ℚ

/-- EpsilonMatrix1.__init__ (lines 419-423). -/
def EpsilonMatrix1.init (normal : Nat → Nat → ℚ) (numEvents seed : Nat) :
    EpsilonMatrix1 :=
  ⟨numEvents, seed, (List.range numEvents).map (normal seed)⟩

/-- EpsilonMatrix1.__getitem__ (lines 425-428): item.1 is the asset index,
item.2 the event index; the value depends only on the event index. -/
def EpsilonMatrix1.getitem (m : EpsilonMatrix1) (item : Nat × Nat) : ℚ :=
  m.eps.getD item.2 0

/-- The (start, n_events) ranges assigned to the successive rupture blocks
by build_starmap (lines 469-483): a running offset start is advanced by
each block event count, partitioning the global event-id space. -/
def blockRanges : Nat → List Nat → List (Nat × Nat)
  | _, [] => []
  | start, n :: ns => (start, n) :: blockRanges (start + n) ns

/-- The seed set handed to a block: seeds[start : start + n] where
seeds = random_seed + numpy.arange(num_events) (line 464). -/
def blockSeeds (randomSeed : Nat) (p : Nat × Nat) : Finset Nat :=
  Finset.Ico (randomSeed + p.1) (randomSeed + p.1 + p.2)

/-- EbrPostCalculator.build_stats (lines 358-374) reduced to which outputs
are stored: the aggregate curve is built whenever agg_loss_table is
present; the cross-realization statistics (compute_store_stats) run only
when there is more than one realization, rcurves-rlzs is present, and
_collect_all_data returned data. Returns (agg curve stored, statistics
stored). -/
def build_stats (numRlzs : Nat)
    (hasAggTable hasRcurves dataNonempty : Bool) : Bool × Bool :=
  (hasAggTable, decide (1 < numRlzs) && (hasRcurves && dataNonempty))

/-- The curve entry computed by build_agg_curve for one (l, r) pair with
nonempty data (lines 79-96); the external scientific.event_based and
scientific.average_loss are the parameters eb and avgf. With insured
losses the ground column is data loss column 0 and the insured column is
column 1, and the insured curve is computed independently. -/
structure CurveOut where
  losses : List ℚ
  poes : List ℚ
  avg : ℚ
  losses_ins : Option (List ℚ)
  poes_ins : Option (List ℚ)
  avg_ins : Option ℚ

/-- The curve record for one nonempty (l, r) dataset. -/
def mkCurveOut (eb : List ℚ → List ℚ × List ℚ)
    (avgf : List ℚ × List ℚ → ℚ) (insured : Bool) (data : List EltRec) :
    CurveOut :=
  let gloss := data.map (fun rec => rec.loss.getD 0 0)
  let iloss := data.map (fun rec => rec.loss.getD 1 0)
  let lp := eb gloss
  if insured then
    let lpi := eb iloss
    ⟨lp.1, lp.2, avgf lp, some lpi.1, some lpi.2, some (avgf lpi)⟩
  else ⟨lp.1, lp.2, avgf lp, none, none, none⟩

/-- build_agg_curve (lines 52-97): realizations with no losses are skipped
with continue; every other pair contributes its curve entry, in order. -/
def build_agg_curve (eb : List ℚ → List ℚ × List ℚ)
    (avgf : List ℚ × List ℚ → ℚ) (insured : Bool)
    (lr_data : List (Nat × Nat × List EltRec)) :
    List ((Nat × Nat) × CurveOut) :=
  lr_data.flatMap (fun t =>
    if t.2.2 = [] then []
    else [((t.1, t.2.1), mkCurveOut eb avgf insured t.2.2)])

/-- A curve builder of the risk model, as seen by save_rcurves. -/
structure CB where
  user_provided : Bool
  loss_type : Nat

/-- EbrPostCalculator.save_rcurves (lines 230-250) reduced to which
(realization, loss type) pairs produce writes: the datastore read is the
lookup parameter, returning none for a missing dataset key (the KeyError
branch, which continues with the next pair); the external curve builder
call is the builder parameter returning (aids, curves); pairs with no
curve (empty aids) are also skipped. Each write is recorded as
(realization, loss type, aids written). -/
def save_rcurves (lookup : Nat → Nat → Option (List ElaRec))
    (builder : Nat → List ElaRec → List Nat × List (List ℚ))
    (rlzs : List Nat) (cbs : List CB) : List (Nat × Nat × List Nat) :=
  rlzs.flatMap (fun r => cbs.flatMap (fun cb =>
    match lookup r cb.loss_type with
    | none => []
    | some data =>
      if cb.user_provided then
        let ac := builder cb.loss_type data
        if ac.1 = [] then [] else [(r, cb.loss_type, ac.1)]
      else []))

/-- EbrPostCalculator.execute line 217: rcurves = numpy.zeros((A, R, 2),
multi_lr_dt); the third axis is the literal 2 whatever the insured-losses
flag (the source carries a TODO to change 2 to I). -/
def rcurvesShape (A R : Nat) (insured_losses : Bool) : Nat × Nat × Nat :=
  (A, R, 2)

/-- The numpy assignment rcurves[lt][aids, r] = curves.reshape(A, I, L) of
save_rcurves lines 248-249, for one loss type: the target view has shape
(len(aids), 2, L); when I = 1 the reshaped value has shape (A, 1, L) and
numpy broadcasting fills both columns of the target with the same curve;
when I = 2 column i receives curve column i. Cells outside the assigned
view keep their previous value. -/
def writeRc (rc : Nat → Nat → Nat → List ℚ) (aids : List Nat) (r : Nat)
    (I : Nat) (curves : Nat → Nat → List ℚ) : Nat → Nat → Nat → List ℚ :=
  fun a r' i =>
    if a ∈ aids ∧ r' = r ∧ i < 2 then
      curves (aids.indexOf a) (if I = 1 then 0 else i)
    else rc a r' i

/-- Concrete task results used to exhibit order dependence of the
append-only loss tables: two tasks of the same source model, both
contributing one record to the pair (loss type 0, realization 0). -/
def taskA : TaskRes := ⟨[((0, 0), [⟨0, [1]⟩])], [], [], 0⟩

/-- Second concrete task result, contributing a different record to the
same (loss type, realization) pair as taskA. -/
def taskB : TaskRes := ⟨[((0, 0), [⟨1, [2]⟩])], [], [], 0⟩

/-- A concrete task result with ground-motion data but no losses. -/
def taskEmpty : TaskRes := ⟨[], [], [], 1⟩

end EBR

namespace EBR

/-! Theorems for claims C1, C6, C7 (partial: the remaining claims follow). -/

/-- C1: every record materialized into the sparse agglosses array by
event_based_risk has total loss (summed over the insured dimensions)
strictly greater than 0; zero-total rows of the dense per-event aggregate
are never materialized. -/
theorem agglosses_sparsity (eids : List Nat) (agglr : List (List ℚ))
    (rec : EltRec) (h : rec ∈ aggRecords eids agglr) : 0 < rec.loss.sum := by
  unfold aggRecords at h
  rcases List.mem_map.1 h with ⟨p, hp, hrec⟩
  have := (List.mem_filter.1 hp).2
  have hsum : 0 < p.2.sum := of_decide_eq_true this
  cases hrec
  exact hsum

/-- Witness for C1 at a concrete input: the dense aggregate rows are
[[1], [0]]; only row 0 is materialized and its total is positive. -/
theorem agglosses_sparsity_witness :
    (⟨0, [(1 : ℚ)]⟩ : EltRec) ∈ aggRecords [0, 1] [[(1 : ℚ)], [(0 : ℚ)]] ∧
    0 < (List.sum [(1 : ℚ)]) := by
  have hm : (⟨0, [(1 : ℚ)]⟩ : EltRec) ∈ aggRecords [0, 1] [[(1 : ℚ)], [(0 : ℚ)]] := by
    simp [aggRecords]
  exact ⟨hm, agglosses_sparsity [0, 1] [[(1 : ℚ)], [(0 : ℚ)]] ⟨0, [(1 : ℚ)]⟩ hm⟩

/-- C6: an (eid, aid, loss) row is buffered by _aggregate exactly when its
loss vector for that event, summed across the insured dimensions, is
strictly positive; in particular with insured losses enabled (I = 2) a row
whose insured component is 0 but whose ground component is positive is
still retained, since the filter tests the sum of both components. -/
theorem asset_rows_buffered_iff (eids : List Nat) (aid : Nat)
    (ratios : List (List ℚ)) (e : Nat) (l : List ℚ) :
    ((⟨e, aid, l⟩ : ElaRec) ∈ assetLossData eids aid ratios ↔
      (e, l) ∈ eids.zip ratios ∧ 0 < l.sum) ∧
    (∀ g : ℚ, 0 < g →
      (⟨e, aid, [g, 0]⟩ : ElaRec) ∈ assetLossData [e] aid [[g, 0]]) := by
  constructor
  · constructor
    · intro h
      rcases List.mem_map.1 h with ⟨p, hp, heq⟩
      rcases List.mem_filter.1 hp with ⟨hz, hd⟩
      have hsum : 0 < p.2.sum := of_decide_eq_true hd
      injection heq with h1 _ h3
      subst h1; subst h3
      exact ⟨by simpa using hz, hsum⟩
    · rintro ⟨hz, hsum⟩
      exact List.mem_map.2 ⟨(e, l),
        List.mem_filter.2 ⟨hz, decide_eq_true hsum⟩, rfl⟩
  · intro g hg
    refine List.mem_map.2 ⟨(e, [g, 0]), List.mem_filter.2 ⟨?_, ?_⟩, rfl⟩
    · simp
    · simpa using hg

/-- Witness for C6: the insured-loss scenario with I = 2, ground ratio 1,
insured ratio 0: the row is buffered (second conjunct of the theorem
with g = 1), and the iff holds at that input. -/
theorem asset_rows_buffered_iff_witness :
    0 < (1 : ℚ) ∧ (⟨3, 7, [(1 : ℚ), 0]⟩ : ElaRec) ∈ assetLossData [3] 7 [[(1 : ℚ), 0]] :=
  ⟨one_pos, (asset_rows_buffered_iff [3] 7 [[(1 : ℚ), 0]] 3 [(1 : ℚ), 0]).2 1 one_pos⟩

/-- C7 counterexample: with one event of loss ratio 1/2 on asset 7 of value
100, the buffered asset loss row carries the raw ratio 1/2, while the
scaled loss (ratio times value) is 50; the buffered loss field is not the
scaled loss, refuting the claim that asset loss records contain losses
obtained by scaling loss ratios by asset value. -/
theorem asset_rows_not_scaled :
    (assetLossData [0] 7 [[(1 : ℚ)/2]]).map ElaRec.loss = [[(1 : ℚ)/2]] ∧
    scaledLosses [[(1 : ℚ)/2]] 100 = [[(50 : ℚ)]] ∧
    [(1 : ℚ)/2] ≠ [(50 : ℚ)] := by
  refine ⟨?_, ?_, ?_⟩ <;> norm_num [assetLossData, scaledLosses]

/-- C7 amended: each buffered asset loss row carries the raw loss ratio
vector of its event, unscaled; the scaling of loss ratios by the asset
value is applied to the per-event dense aggregate instead, which
processAsset updates with scaledLosses (ratio times asset value). -/
theorem asset_rows_hold_ratios (mon : Monitor) (I : Nat) (idxOf : Nat → Nat)
    (eids : List Nat) (aid : Nat) (v : ℚ) (ratios : List (List ℚ))
    (st : TaskAcc) (rec : ElaRec)
    (h : rec ∈ assetLossData eids aid ratios) :
    (rec.eid, rec.loss) ∈ eids.zip ratios ∧
    (processAsset mon I idxOf eids aid v ratios st).agg =
      aggUpdate st.agg (eids.map idxOf) (scaledLosses ratios v) := by
  constructor
  · rcases List.mem_map.1 h with ⟨p, hp, heq⟩
    have hz := (List.mem_filter.1 hp).1
    cases heq
    simpa using hz
  · unfold processAsset
    dsimp only
    split_ifs <;> rfl

/-- Witness for C7 amended, at the counterexample input: the buffered row
for event 0 carries ratio 1/2 and the aggregate is updated with the scaled
losses. -/
theorem asset_rows_hold_ratios_witness :
    ((0 : Nat), [(1 : ℚ)/2]) ∈ ([0] : List Nat).zip [[(1 : ℚ)/2]] ∧
    (processAsset ⟨false, true, false, 1⟩ 1 id [0] 7 100 [[(1 : ℚ)/2]]
        ⟨[], [], [[0]]⟩).agg =
      aggUpdate [[(0 : ℚ)]] [0] (scaledLosses [[(1 : ℚ)/2]] 100) := by
  refine asset_rows_hold_ratios ⟨false, true, false, 1⟩ 1 id [0] 7 100
    [[(1 : ℚ)/2]] ⟨[], [], [[0]]⟩ ⟨0, 7, [(1 : ℚ)/2]⟩ ?_
  norm_num [assetLossData]

/-- Folding datastore.extend over the entries of one task appends exactly
that task's contribution to each key of the table. -/
theorem foldl_extendTable {α : Type} (off : Nat)
    (entries : List ((Nat × Nat) × List α)) (f : Nat × Nat → List α)
    (k : Nat × Nat) :
    (entries.foldl (fun g e => extendTable g (e.1.2 + off, e.1.1) e.2) f) k
      = f k ++ tableContrib off entries k := by
  induction entries generalizing f with
  | nil => simp [tableContrib]
  | cons e es ih =>
    rw [List.foldl_cons, ih]
    by_cases hc : k = (e.1.2 + off, e.1.1) <;>
      simp [extendTable, tableContrib, hc]

/-- save_results over a cons of task results is a saveOne step followed by
the fold over the rest. -/
theorem save_results_cons (L : Nat) (ins avgFlag : Bool)
    (vals : Nat → Nat → ℚ) (st : Store) (t : Nat × TaskRes)
    (ts : List (Nat × TaskRes)) :
    save_results L ins avgFlag vals st (t :: ts)
      = save_results L ins avgFlag vals (saveOne L ins avgFlag vals st t) ts :=
  rfl

/-- One saveOne step appends the task contribution to each agg_loss_table
key. -/
theorem saveOne_agg (L : Nat) (ins avgFlag : Bool) (vals : Nat → Nat → ℚ)
    (st : Store) (t : Nat × TaskRes) (k : Nat × Nat) :
    (saveOne L ins avgFlag vals st t).agg_loss_table k
      = st.agg_loss_table k ++ tableContrib t.1 t.2.agglosses k := by
  unfold saveOne save_losses
  dsimp only
  split_ifs <;> exact foldl_extendTable t.1 t.2.agglosses _ k

/-- One saveOne step appends the task contribution to each ass_loss_ratios
key. -/
theorem saveOne_ass (L : Nat) (ins avgFlag : Bool) (vals : Nat → Nat → ℚ)
    (st : Store) (t : Nat × TaskRes) (k : Nat × Nat) :
    (saveOne L ins avgFlag vals st t).ass_loss_ratios k
      = st.ass_loss_ratios k ++ tableContrib t.1 t.2.asslosses k := by
  unfold saveOne save_losses
  dsimp only
  split_ifs <;> exact foldl_extendTable t.1 t.2.asslosses _ k

/-- One saveOne step adds the task avg-loss contribution at each cell of
the dense array. -/
theorem saveOne_avg (L : Nat) (ins avgFlag : Bool) (vals : Nat → Nat → ℚ)
    (st : Store) (t : Nat × TaskRes) (p : Nat × Nat × Nat) :
    (saveOne L ins avgFlag vals st t).avg_losses p
      = st.avg_losses p
        + (if avgFlag then avgDelta L ins vals t.1 t.2.avglosses p else 0) := by
  unfold saveOne save_losses
  dsimp only
  split_ifs <;> simp

/-- One saveOne step accumulates the task gmfbytes. -/
theorem saveOne_gmf (L : Nat) (ins avgFlag : Bool) (vals : Nat → Nat → ℚ)
    (st : Store) (t : Nat × TaskRes) :
    (saveOne L ins avgFlag vals st t).gmfbytes
      = st.gmfbytes + t.2.gmfbytes := by
  unfold saveOne save_losses
  dsimp only
  split_ifs <;> rfl

/-- The agg_loss_table produced by save_results is the initial content of
each key followed by the concatenation, in completion order, of the
per-task contributions to that key. -/
theorem save_results_agg (L : Nat) (ins avgFlag : Bool)
    (vals : Nat → Nat → ℚ) (st : Store) (tasks : List (Nat × TaskRes))
    (k : Nat × Nat) :
    (save_results L ins avgFlag vals st tasks).agg_loss_table k
      = st.agg_loss_table k
        ++ tasks.flatMap (fun t => tableContrib t.1 t.2.agglosses k) := by
  induction tasks generalizing st with
  | nil => simp [save_results]
  | cons t ts ih =>
    rw [save_results_cons, ih, saveOne_agg]
    simp

/-- The ass_loss_ratios table produced by save_results is the initial
content of each key followed by the per-task contributions in completion
order. -/
theorem save_results_ass (L : Nat) (ins avgFlag : Bool)
    (vals : Nat → Nat → ℚ) (st : Store) (tasks : List (Nat × TaskRes))
    (k : Nat × Nat) :
    (save_results L ins avgFlag vals st tasks).ass_loss_ratios k
      = st.ass_loss_ratios k
        ++ tasks.flatMap (fun t => tableContrib t.1 t.2.asslosses k) := by
  induction tasks generalizing st with
  | nil => simp [save_results]
  | cons t ts ih =>
    rw [save_results_cons, ih, saveOne_ass]
    simp

/-- The avg_losses dense array produced by save_results holds, at each
cell, the initial value plus the sum of the per-task contributions. -/
theorem save_results_avg (L : Nat) (ins avgFlag : Bool)
    (vals : Nat → Nat → ℚ) (st : Store) (tasks : List (Nat × TaskRes))
    (p : Nat × Nat × Nat) :
    (save_results L ins avgFlag vals st tasks).avg_losses p
      = st.avg_losses p
        + (tasks.map (fun t =>
            if avgFlag then avgDelta L ins vals t.1 t.2.avglosses p else 0)).sum := by
  induction tasks generalizing st with
  | nil => simp [save_results]
  | cons t ts ih =>
    rw [save_results_cons, ih, saveOne_avg]
    simp [add_assoc]

/-- The gmfbytes accumulated by save_results is the initial value plus the
sum of the per-task byte counts. -/
theorem save_results_gmf (L : Nat) (ins avgFlag : Bool)
    (vals : Nat → Nat → ℚ) (st : Store) (tasks : List (Nat × TaskRes)) :
    (save_results L ins avgFlag vals st tasks).gmfbytes
      = st.gmfbytes + (tasks.map (fun t => t.2.gmfbytes)).sum := by
  induction tasks generalizing st with
  | nil => simp [save_results]
  | cons t ts ih =>
    rw [save_results_cons, ih, saveOne_gmf]
    simp [Nat.add_assoc]

/-- C3 counterexample: two tasks of the same source model each contribute
one record to the pair (loss type 0, realization 0); folding them through
save_results in the two completion orders yields agg_loss_table contents
that differ in row order, so the persisted aggregate is not bit-identical
under permutation of task completion order. -/
theorem save_results_order_dependent :
    (save_results 1 false false (fun _ _ => 0) emptyStore
        [(0, taskA), (0, taskB)]).agg_loss_table (0, 0)
      ≠ (save_results 1 false false (fun _ _ => 0) emptyStore
        [(0, taskB), (0, taskA)]).agg_loss_table (0, 0) := by
  rw [save_results_agg, save_results_agg]
  simp [emptyStore, taskA, taskB, tableContrib]

/-- C3 amended: folding a fixed set of task results through save_results
in any permutation of completion order yields the same persisted
aggregates up to row order: the dense avg_losses-rlzs array and the total
gmfbytes are identical, and every agg_loss_table and ass_loss_ratios key
holds a permutation (the same multiset) of the same records; the
realization columns written (r + offset) are fixed before dispatch and do
not depend on completion order. -/
theorem save_results_commutes (L : Nat) (ins avgFlag : Bool)
    (vals : Nat → Nat → ℚ) (st : Store)
    (tasks tasks' : List (Nat × TaskRes)) (h : tasks.Perm tasks') :
    (∀ k, ((save_results L ins avgFlag vals st tasks).agg_loss_table k).Perm
      ((save_results L ins avgFlag vals st tasks').agg_loss_table k)) ∧
    (∀ k, ((save_results L ins avgFlag vals st tasks).ass_loss_ratios k).Perm
      ((save_results L ins avgFlag vals st tasks').ass_loss_ratios k)) ∧
    (∀ p, (save_results L ins avgFlag vals st tasks).avg_losses p
      = (save_results L ins avgFlag vals st tasks').avg_losses p) ∧
    (save_results L ins avgFlag vals st tasks).gmfbytes
      = (save_results L ins avgFlag vals st tasks').gmfbytes := by
  refine ⟨?_, ?_, ?_, ?_⟩
  · intro k
    rw [save_results_agg, save_results_agg]
    exact List.Perm.append_left _ (h.flatMap_right _)
  · intro k
    rw [save_results_ass, save_results_ass]
    exact List.Perm.append_left _ (h.flatMap_right _)
  · intro p
    rw [save_results_avg, save_results_avg, (h.map _).sum_eq]
  · rw [save_results_gmf, save_results_gmf, (h.map _).sum_eq]

/-- Witness for C3 amended, at the concrete order-dependent input of the
counterexample: the two completion orders yield agg_loss_table contents
at key (0, 0) that are permutations of each other. -/
theorem save_results_commutes_witness :
    ((save_results 1 false false (fun _ _ => 0) emptyStore
        [(0, taskA), (0, taskB)]).agg_loss_table (0, 0)).Perm
      ((save_results 1 false false (fun _ _ => 0) emptyStore
        [(0, taskB), (0, taskA)]).agg_loss_table (0, 0)) :=
  (save_results_commutes 1 false false (fun _ _ => 0) emptyStore
    [(0, taskA), (0, taskB)] [(0, taskB), (0, taskA)]
    (List.Perm.swap (0, taskB) (0, taskA) [])).1 (0, 0)

/-- C2 counterexample: a run in which ground-motion data was produced
(gmfbytes = 1) but zero total losses were generated across all tasks (the
agg_loss_table key is absent) completes with only a warning; it is not
aborted as a hard error, refuting the claim that zero total losses abort
the run. -/
theorem zero_losses_not_fatal :
    post_execute 1 false = Except.ok ["No losses were generated"] := rfl

/-- C2 amended: the hard abort of post_execute is keyed on the ground
motion data, not on the losses: a RuntimeError is raised exactly when
gmfbytes = 0; a run whose tasks produced GMF data but zero total losses
(so that no task result carried agglosses records and the agg_loss_table
stays empty) completes normally with a warning. -/
theorem post_execute_error_iff :
    (∀ (g : Nat) (hasAgg : Bool),
      (∃ e, post_execute g hasAgg = Except.error e) ↔ g = 0) ∧
    (∀ (L : Nat) (ins avgFlag : Bool) (vals : Nat → Nat → ℚ)
      (tasks : List (Nat × TaskRes)),
      (∀ t ∈ tasks, t.2.agglosses = []) → ∀ k,
      (save_results L ins avgFlag vals emptyStore tasks).agg_loss_table k
        = []) := by
  constructor
  · intro g hasAgg
    constructor
    · rintro ⟨e, he⟩
      by_contra hg
      cases hasAgg <;> simp [post_execute, hg] at he
    · intro hg
      exact ⟨"No GMFs were generated", by simp [post_execute, hg]⟩
  · intro L ins avgFlag vals tasks hemp k
    rw [save_results_agg]
    simp only [emptyStore, List.nil_append]
    apply List.flatMap_eq_nil_iff.2
    intro t ht
    simp [tableContrib, hemp t ht]

/-- Witness for C2 amended: with gmfbytes = 0 an error is raised, and a
run of one task with GMF data but no losses leaves agg_loss_table empty. -/
theorem post_execute_error_iff_witness :
    (∃ e, post_execute 0 true = Except.error e) ∧
    (save_results 1 false false (fun _ _ => 0) emptyStore
      [(0, taskEmpty)]).agg_loss_table (0, 0) = [] := by
  constructor
  · exact (post_execute_error_iff.1 0 true).2 rfl
  · exact post_execute_error_iff.2 1 false false (fun _ _ => 0)
      [(0, taskEmpty)] (by simp [taskEmpty]) (0, 0)

/-- C4: epsilon determinism. For EpsilonMatrix0: re-reading any index
returns the value of the first read, whatever the cache state; after any
prior read of a freshly constructed matrix, a read returns the same value
as on a fresh matrix, so the values are a pure function of the seed
inputs and two sources built from the same (num_assets, seeds) yield
identical values. For EpsilonMatrix1: the value at (asset, event) is
independent of the asset index, and equals the seeded draw for the event,
identical across reconstructions from the same seed. -/
theorem epsilon_deterministic (normal : Nat → Nat → ℚ) :
    (∀ (m : EpsilonMatrix0) (item : Nat × Nat),
      ((m.getitem normal item).2.getitem normal item).1
        = (m.getitem normal item).1) ∧
    (∀ (n : Nat) (seeds : List Nat) (item item' : Nat × Nat),
      (((EpsilonMatrix0.init n seeds).getitem normal item').2.getitem
          normal item).1
        = ((EpsilonMatrix0.init n seeds).getitem normal item).1) ∧
    (∀ (nE seed a a' e : Nat),
      (EpsilonMatrix1.init normal nE seed).getitem (a, e)
        = (EpsilonMatrix1.init normal nE seed).getitem (a', e)) ∧
    (∀ (nE seed e : Nat), e < nE →
      (EpsilonMatrix1.init normal nE seed).getitem (0, e) = normal seed e) := by
  refine ⟨?_, ?_, ?_, ?_⟩
  · intro m item
    rcases m with ⟨n, seeds, eps⟩
    cases eps <;> rfl
  · intro n seeds item item'
    rfl
  · intro nE seed a a' e
    rfl
  · intro nE seed e he
    simp [EpsilonMatrix1.init, EpsilonMatrix1.getitem,
      List.getD_eq_getElem?_getD, he]

/-- Witness for C4 at a concrete generator and seed: event 1 of a
2-event fully correlated source seeded with 5 reads back the seeded
draw. -/
theorem epsilon_deterministic_witness :
    (EpsilonMatrix1.init (fun s i => (s : ℚ) + i) 2 5).getitem (0, 1)
      = (5 : ℚ) + 1 :=
  (epsilon_deterministic (fun s i => (s : ℚ) + i)).2.2.2 2 5 1 one_lt_two

/-- Every block range handed out by the running offset starts at or after
the offset it was built from. -/
theorem blockRanges_start_le (ns : List Nat) (s : Nat) (p : Nat × Nat)
    (hp : p ∈ blockRanges s ns) : s ≤ p.1 := by
  induction ns generalizing s with
  | nil => simp [blockRanges] at hp
  | cons n ns ih =>
    rcases (by simpa [blockRanges] using hp :
        p = (s, n) ∨ p ∈ blockRanges (s + n) ns) with h | h
    · subst h; exact le_rfl
    · exact le_trans (Nat.le_add_right s n) (ih (s + n) h)

/-- The block ranges are laid out consecutively: an earlier block ends at
or before a later block starts. -/
theorem blockRanges_mono (ns : List Nat) (start i j : Nat)
    (hi : i < (blockRanges start ns).length)
    (hj : j < (blockRanges start ns).length) (hij : i < j) :
    ((blockRanges start ns).get ⟨i, hi⟩).1
        + ((blockRanges start ns).get ⟨i, hi⟩).2
      ≤ ((blockRanges start ns).get ⟨j, hj⟩).1 := by
  induction ns generalizing start i j with
  | nil => simp [blockRanges] at hi
  | cons n ns ih =>
    match i, j with
    | _, 0 => omega
    | 0, j' + 1 =>
      have hj' : j' < (blockRanges (start + n) ns).length := by
        simpa [blockRanges] using hj
      have hmem := List.get_mem (blockRanges (start + n) ns) j' hj'
      have := blockRanges_start_le ns (start + n) _ hmem
      simpa [blockRanges] using this
    | i' + 1, j' + 1 =>
      have hi' : i' < (blockRanges (start + n) ns).length := by
        simpa [blockRanges] using hi
      have hj' : j' < (blockRanges (start + n) ns).length := by
        simpa [blockRanges] using hj
      simpa [blockRanges] using
        ih (start + n) i' j' hi' hj' (Nat.lt_of_succ_lt_succ hij)

/-- Two Ico seed windows are disjoint when the first ends at or before the
second starts. -/
theorem ico_disjoint_of_le {a b c d : Nat} (h : b ≤ c) :
    Disjoint (Finset.Ico a b) (Finset.Ico c d) := by
  refine Finset.disjoint_left.2 ?_
  intro x hx hx'
  have h1 := (Finset.mem_Ico.1 hx).2
  have h2 := (Finset.mem_Ico.1 hx').1
  omega

/-- C5: distinct rupture blocks dispatched in a run receive disjoint
epsilon seed ranges; the running offset of build_starmap pre-partitions
the global event-id space, and the per-block seed slices
seeds[start : start + n] with seeds = random_seed + arange(num_events)
never overlap. -/
theorem seed_ranges_disjoint (randomSeed : Nat) (ns : List Nat) (i j : Nat)
    (hi : i < (blockRanges 0 ns).length)
    (hj : j < (blockRanges 0 ns).length) (hij : i ≠ j) :
    Disjoint (blockSeeds randomSeed ((blockRanges 0 ns).get ⟨i, hi⟩))
      (blockSeeds randomSeed ((blockRanges 0 ns).get ⟨j, hj⟩)) := by
  rcases Nat.lt_or_ge i j with hlt | hge
  · have hm := blockRanges_mono ns 0 i j hi hj hlt
    exact ico_disjoint_of_le (by omega)
  · have hlt : j < i := Nat.lt_of_le_of_ne hge (fun h => hij h.symm)
    have hm := blockRanges_mono ns 0 j i hj hi hlt
    exact (ico_disjoint_of_le (by omega)).symm

/-- Witness for C5: two blocks of 2 and 3 events with random_seed 42 get
the seed windows [42, 44) and [44, 47), which are disjoint. -/
theorem seed_ranges_disjoint_witness :
    Disjoint (blockSeeds 42 ((blockRanges 0 [2, 3]).get ⟨0, by decide⟩))
      (blockSeeds 42 ((blockRanges 0 [2, 3]).get ⟨1, by decide⟩)) :=
  seed_ranges_disjoint 42 [2, 3] 0 1 (by decide) (by decide) (by decide)

/-- C8 counterexample: with exactly 1 realization and every input present,
build_stats stores no statistics at all (the statistics flag of its result
is false): the statistics do not collapse to the realization values, they
are simply never computed, because compute_store_stats runs only under
len(rlzs) > 1. -/
theorem single_rlz_no_stats : (build_stats 1 true true true).2 = false := rfl

/-- C8 amended: with exactly 1 realization no statistics are computed or
stored at all (neither quantiles nor means); statistics are produced
exactly when there are at least 2 realizations, rcurves-rlzs is present
and the collected data is nonempty. -/
theorem stats_iff_multiple_rlzs (R : Nat) (hA hR hD : Bool) :
    (build_stats R hA hR hD).2 = true ↔ 1 < R ∧ hR = true ∧ hD = true := by
  simp [build_stats, and_assoc]

/-- C9: empty-result conditions are recoverable locally. A (loss type,
realization) pair whose aggregate loss data is empty contributes no curve
entry to build_agg_curve, which is total (nothing is raised); every write
produced by save_rcurves comes from a present dataset key (missing keys
are skipped via the KeyError branch), and a pair with a present key and a
user-provided builder yielding curves is always written, whatever other
pairs are missing (processing continues). -/
theorem empty_results_recoverable (eb : List ℚ → List ℚ × List ℚ)
    (avgf : List ℚ × List ℚ → ℚ) (ins : Bool)
    (lr_data : List (Nat × Nat × List EltRec)) (l r : Nat)
    (hemp : ∀ d, (l, r, d) ∈ lr_data → d = [])
    (lookup : Nat → Nat → Option (List ElaRec))
    (builder : Nat → List ElaRec → List Nat × List (List ℚ))
    (rlzs : List Nat) (cbs : List CB) :
    (∀ c, ((l, r), c) ∉ build_agg_curve eb avgf ins lr_data) ∧
    (∀ w ∈ save_rcurves lookup builder rlzs cbs,
      (lookup w.1 w.2.1).isSome = true) ∧
    (∀ rz cb data, rz ∈ rlzs → cb ∈ cbs → cb.user_provided = true →
      lookup rz cb.loss_type = some data →
      (builder cb.loss_type data).1 ≠ [] →
      (rz, cb.loss_type, (builder cb.loss_type data).1)
        ∈ save_rcurves lookup builder rlzs cbs) := by
  refine ⟨?_, ?_, ?_⟩
  · intro c hc
    rcases List.mem_flatMap.1 hc with ⟨t, ht, hmem⟩
    by_cases hd : t.2.2 = []
    · simp [hd] at hmem
    · rw [if_neg hd] at hmem
      rcases List.mem_singleton.1 hmem with heq
      have hpair : (l, r) = (t.1, t.2.1) := congrArg Prod.fst heq
      have h1 : l = t.1 := congrArg Prod.fst hpair
      have h2 : r = t.2.1 := congrArg Prod.snd hpair
      exact hd (hemp t.2.2 (by rw [h1, h2]; exact ht))
  · intro w hw
    rcases List.mem_flatMap.1 hw with ⟨rz, _, hw2⟩
    rcases List.mem_flatMap.1 hw2 with ⟨cb, _, hw3⟩
    cases hl : lookup rz cb.loss_type with
    | none =>
      rw [hl] at hw3
      simp at hw3
    | some data =>
      rw [hl] at hw3
      dsimp only at hw3
      by_cases hup : cb.user_provided = true
      · rw [if_pos hup] at hw3
        by_cases hne : (builder cb.loss_type data).1 = []
        · rw [if_pos hne] at hw3
          simp at hw3
        · rw [if_neg hne] at hw3
          rcases List.mem_singleton.1 hw3 with heq
          subst heq
          simp [hl]
      · rw [if_neg hup] at hw3
        simp at hw3
  · intro rz cb data hrz hcb hup hl hne
    refine List.mem_flatMap.2 ⟨rz, hrz, List.mem_flatMap.2 ⟨cb, hcb, ?_⟩⟩
    rw [hl]
    dsimp only
    rw [if_pos hup, if_neg hne]
    exact List.mem_singleton.2 rfl

/-- Witness for C9: pair (0, 0) has empty aggregate data and produces no
entry; the asset-ratio key (0, 0) is missing and is skipped, while the
present pair (0, 1) is still written. -/
theorem empty_results_recoverable_witness :
    (((0, 0), mkCurveOut (fun _ => ([], [])) (fun _ => 0) false [])
        ∉ build_agg_curve (fun _ => ([], [])) (fun _ => 0) false
          [(0, 0, [])]) ∧
    ((0, 1, [5])
        ∈ save_rcurves
          (fun rz c => if rz = 0 ∧ c = 0 then none else some [])
          (fun _ _ => ([5], [])) [0] [⟨true, 0⟩, ⟨true, 1⟩]) := by
  have h := empty_results_recoverable (fun _ => ([], [])) (fun _ => 0) false
    [(0, 0, [])] 0 0 (by simp)
    (fun rz c => if rz = 0 ∧ c = 0 then none else some [])
    (fun _ _ => ([5], [])) [0] [⟨true, 0⟩, ⟨true, 1⟩]
  refine ⟨h.1 _, ?_⟩
  exact h.2.2 0 ⟨true, 1⟩ [] (by simp) (by simp) rfl (by simp) (by simp)

/-- C10 counterexample: with the insured flag off (I = 1), writing the
nonzero ground curve [1] for asset 0 at realization 0 leaves curve [1],
not the zero curve, in the insured column (third-axis index 1) of the
written cell: numpy broadcasting of the (A, 1, L) reshaped curves fills
both columns, so the unused insured column does not stay zero. -/
theorem insured_column_not_zero :
    writeRc (fun _ _ _ => [(0 : ℚ)]) [0] 0 1 (fun _ _ => [(1 : ℚ)]) 0 0 1
      = [(1 : ℚ)] ∧ [(1 : ℚ)] ≠ [(0 : ℚ)] := by
  constructor
  · simp [writeRc]
  · simp

/-- C10 amended: the rcurves-rlzs array is allocated with a fixed third
axis of exactly 2 columns per (asset, realization) regardless of the
insured-losses flag, and curves written into it are reshaped to (A, I, L);
but when I = 1 the insured column of a written (asset, realization) cell
receives a broadcast copy of the ground curve rather than staying zero;
only cells never written keep their previous (zero) value. -/
theorem rcurves_fixed_two_columns (A R : Nat) (b : Bool)
    (rc : Nat → Nat → Nat → List ℚ) (aids : List Nat) (r : Nat)
    (curves : Nat → Nat → List ℚ) (a : Nat) (ha : a ∈ aids) :
    rcurvesShape A R b = (A, R, 2) ∧
    writeRc rc aids r 1 curves a r 1 = curves (aids.indexOf a) 0 ∧
    writeRc rc aids r 1 curves a r 0 = curves (aids.indexOf a) 0 ∧
    (∀ (I a' r' i : Nat), a' ∉ aids →
      writeRc rc aids r I curves a' r' i = rc a' r' i) := by
  refine ⟨rfl, ?_, ?_, ?_⟩
  · simp [writeRc, ha]
  · simp [writeRc, ha]
  · intro I a' r' i ha'
    simp [writeRc, ha']

/-- Witness for C10 amended, at asset 0 written with ground curve [1]:
the shape is (3, 2, 2) and both columns of the written cell hold [1]. -/
theorem rcurves_fixed_two_columns_witness :
    rcurvesShape 3 2 false = (3, 2, 2) ∧
    writeRc (fun _ _ _ => [(0 : ℚ)]) [0] 0 1 (fun _ _ => [(1 : ℚ)]) 0 0 0
      = (fun _ _ => [(1 : ℚ)]) (([0] : List Nat).indexOf 0) 0 := by
  have h := rcurves_fixed_two_columns 3 2 false (fun _ _ _ => [(0 : ℚ)])
    [0] 0 (fun _ _ => [(1 : ℚ)]) 0 (by simp)
  exact ⟨h.1, h.2.2.1⟩

end EBR
